import Mathlib

/-!
Shallow embedding of the STM32 clock driver
(`src/libuavcan_drivers/stm32/driver/src/uc_stm32_clock.cpp`).

Modelling conventions:
* The driver state (globals `time_mono`, `time_utc`, `utc_set`,
  `utc_correction_usec_per_overflow`, `utc_jump_cnt`) together with the two
  hardware registers the code reads (`TIMX->CNT`, the `TIM_SR_UIF` overflow
  flag) form one record `Sys`.
* `uint64` accumulators are modelled as `Nat`.  The 16-bit counter wrap, the
  `uint64` underflow guard in `adjustUtc`, the `uint32` mixed-width sum in the
  interrupt handler and the `int32` product in `getUtcSpeedCorrectionPPM` are
  the places where machine-width wrapping is live, and each is modelled
  explicitly; wrap of the 64-bit accumulators themselves (2^64 µs ≈ 585 000
  years of uptime) is assumed absent, as it is by the source's own self-test
  `assert(prev_usec <= usec)`.
* Critical sections mask the update interrupt, so a sampling operation sees a
  single consistent (`CNT`, `UIF`, accumulator) snapshot; interleaving is
  modelled at operation granularity by the `step` relation.
-/

/-- State of the clock driver: hardware registers first (`TIMX->CNT` and the
`TIM_SR_UIF` update-interrupt flag), then the file-scope globals of
`uc_stm32_clock.cpp`. -/
structure Sys where
  cnt : Nat
  uif : Bool
  time_mono : Nat
  time_utc : Nat
  utc_set : Bool
  utc_correction_usec_per_overflow : Int
  utc_jump_cnt : Nat
  initialized : Bool
deriving DecidableEq

/-- `const uint32_t USecPerOverflow = 65536` — the timer period P in µs. -/
def USecPerOverflow : Nat := 65536

/-- `const int32_t MaxUtcSpeedCorrection = 500`. -/
def MaxUtcSpeedCorrection : Int := 500

/-- `sampleFromCriticalSection` (lines 85–109): read the accumulator and the
counter; if the overflow flag is pending, re-read the counter and add one
period to the local copy of the accumulator value. -/
def sampleFromCriticalSection (value : Nat) (s : Sys) : Nat :=
  let time := value
  let cnt := s.cnt
  if s.uif = true then
    let cnt2 := s.cnt
    let time2 := time + USecPerOverflow
    time2 + cnt2
  else
    time + cnt

/-- `getMonotonic` (lines 116–129), as the µs value it returns. -/
def getMonotonic (s : Sys) : Nat :=
  sampleFromCriticalSection s.time_mono s

/-- `getUtcUSecFromCanInterrupt` (lines 111–114). -/
def getUtcUSecFromCanInterrupt (s : Sys) : Nat :=
  if s.utc_set = true then sampleFromCriticalSection s.time_utc s else 0

/-- `getUtc` (lines 131–143), as the µs value of the returned `UtcTime`
(`UtcTime()` is the zero/epoch timestamp). -/
def getUtc (s : Sys) : Nat :=
  if s.utc_set = true then sampleFromCriticalSection s.time_utc s else 0

/-- `getUtcAjdustmentJumpCount` (lines 212–216; source spelling kept). -/
def getUtcAjdustmentJumpCount (s : Sys) : Nat :=
  s.utc_jump_cnt

/-- Wrap an integer into the signed 32-bit range, as C++ `int32_t` overflow
would (two's complement). -/
def int32wrap (x : Int) : Int :=
  (x + 2 ^ 31) % 2 ^ 32 - 2 ^ 31

/-- Convert an integer to `uint32_t` (two's-complement wrap), as the usual
arithmetic conversions do in `USecPerOverflow + utc_correction_usec_per_overflow`. -/
def uint32ofInt (x : Int) : Nat :=
  (x % 2 ^ 32).toNat

/-- `getUtcSpeedCorrectionPPM` (lines 206–210):
`int64_t(utc_correction_usec_per_overflow * 1000000) / USecPerOverflow`.
The product is `int32` arithmetic (wrapped), the division is C++ `int64`
division, i.e. truncation toward zero (`Int.tdiv`). -/
def getUtcSpeedCorrectionPPM (s : Sys) : Int :=
  Int.tdiv (int32wrap (s.utc_correction_usec_per_overflow * 1000000)) (USecPerOverflow : Int)

/-- The timer interrupt handler `TIMX_IRQHandler` (lines 237–254): clear the
overflow flag, advance `time_mono` by one period, and, if UTC is set, advance
`time_utc` by the period plus the speed correction (a `uint32` sum). -/
def timxIrqHandler (s : Sys) : Sys :=
  { s with
    uif := false
    time_mono := s.time_mono + USecPerOverflow
    time_utc :=
      if s.utc_set = true then
        s.time_utc + uint32ofInt ((USecPerOverflow : Int) + s.utc_correction_usec_per_overflow)
      else
        s.time_utc }

/-- Modelled from the spec: `uavcan::UtcDuration` (libuavcan, not under
`src/`) stores a signed 64-bit microsecond count; `adjustment.getAbs().toMSec()`
converts the microsecond magnitude to whole milliseconds by integer division
(truncation — the integer-arithmetic convention the spec itself fixes for the
driver's µs-scale conversions, cf. `getUtcSpeedCorrectionPpm`). -/
def absToMSec (adjustment : Int) : Nat :=
  adjustment.natAbs / 1000

/-- The speed-trim step of `adjustUtc` (lines 155–172): `isPositive()` means
`> 0`, so a zero or negative adjustment takes the decrement branch. -/
def speedTrim (corr : Int) (adjustment : Int) : Int :=
  if 0 < adjustment then
    if corr < MaxUtcSpeedCorrection then corr + 1 else corr
  else
    if -MaxUtcSpeedCorrection < corr then corr - 1 else corr

/-- The guarded accumulator write of `adjustUtc` (lines 182–192): if the
adjustment is negative and its magnitude (as `uint64_t(-adj_usec)`) exceeds
`time_utc`, clamp to 1; otherwise `time_utc += adj_usec` (in the latter case
the magnitude is at most `time_utc`, so the `uint64` sum does not wrap and
equals the integer sum). -/
def applyOffset (time_utc : Nat) (adj_usec : Int) : Nat :=
  if adj_usec < 0 ∧ time_utc < adj_usec.natAbs then 1
  else ((time_utc : Int) + adj_usec).toNat

/-- `adjustUtc` (lines 145–204). -/
def adjustUtc (s : Sys) (adjustment : Int) : Sys :=
  if adjustment = 0 ∧ s.utc_set = true then
    s
  else
    let corr := speedTrim s.utc_correction_usec_per_overflow adjustment
    if 1 < absToMSec adjustment ∨ s.utc_set = false then
      if s.utc_set = true then
        { s with
          utc_correction_usec_per_overflow := corr
          time_utc := applyOffset s.time_utc adjustment
          utc_jump_cnt := s.utc_jump_cnt + 1 }
      else
        { s with
          utc_correction_usec_per_overflow := 0
          time_utc := applyOffset s.time_utc adjustment
          utc_set := true }
    else
      { s with utc_correction_usec_per_overflow := corr }

/-- State after `init()`: `EGR = UG` with `URS` set reloads the counter to 0
without raising the update interrupt, and every global initializer is zero. -/
def initState : Sys :=
  ⟨0, false, 0, 0, false, 0, 0, true⟩

/-- Events of the interleaving model: one hardware counter tick (1 µs; at
0xFFFF the counter wraps to 0 and raises `UIF`), one run of the timer
interrupt handler, or one `adjustUtc` call. -/
inductive Event where
  | tick : Event
  | irq : Event
  | adjust : Int → Event
deriving DecidableEq

/-- One interleaving step.  A wrap requires the previous overflow to have been
serviced (the handler runs exactly once per wrap — the hardware contract of
§4.1), and the handler runs only when the overflow flag is pending. -/
def step : Event → Sys → Option Sys
  | Event.tick, s =>
    if s.cnt + 1 < USecPerOverflow then
      some { s with cnt := s.cnt + 1 }
    else if s.uif then
      none
    else
      some { s with cnt := 0, uif := true }
  | Event.irq, s =>
    if s.uif then some (timxIrqHandler s) else none
  | Event.adjust d, s =>
    some (adjustUtc s d)

/-- Run a sequence of events. -/
def runTrace : List Event → Sys → Option Sys
  | [], s => some s
  | e :: es, s =>
    match step e s with
    | none => none
    | some s2 => runTrace es s2

/-- Number of hardware ticks (elapsed µs) in a trace. -/
def countTicks : List Event → Nat
  | [] => 0
  | Event.tick :: es => countTicks es + 1
  | _ :: es => countTicks es

/-- The value every monotonic sample observes: accumulator, pending-overflow
compensation, counter. -/
def observed (s : Sys) : Nat :=
  s.time_mono + (if s.uif then USecPerOverflow else 0) + s.cnt

/-!
The read-only entry points assign to no shared field (the sampler's
`time += USecPerOverflow` mutates only its local copy of the accumulator), so
their embeddings are pure; the `*_run` forms below make the post-state
explicit, pairing each returned value with the driver state the call leaves
behind.
-/

/-- `sampleFromCriticalSection` with its post-state. -/
def sampleFromCriticalSection_run (value : Nat) (s : Sys) : Nat × Sys :=
  (sampleFromCriticalSection value s, s)

/-- `getMonotonic` with its post-state. -/
def getMonotonic_run (s : Sys) : Nat × Sys :=
  (getMonotonic s, s)

/-- `getUtc` with its post-state. -/
def getUtc_run (s : Sys) : Nat × Sys :=
  (getUtc s, s)

/-- `getUtcUSecFromCanInterrupt` with its post-state. -/
def getUtcUSecFromCanInterrupt_run (s : Sys) : Nat × Sys :=
  (getUtcUSecFromCanInterrupt s, s)

/-- `getUtcSpeedCorrectionPPM` with its post-state. -/
def getUtcSpeedCorrectionPPM_run (s : Sys) : Int × Sys :=
  (getUtcSpeedCorrectionPPM s, s)

/-- `getUtcAjdustmentJumpCount` with its post-state. -/
def getUtcAjdustmentJumpCount_run (s : Sys) : Nat × Sys :=
  (getUtcAjdustmentJumpCount s, s)

/-- Invariant maintained by every step from the post-`init()` state: the
counter is in range, the speed correction is clamped to
`[-MaxUtcSpeedCorrection, MaxUtcSpeedCorrection]`, and before the first
synchronization the correction and the jump counter are still zero. -/
def ClockInv (s : Sys) : Prop :=
  s.cnt < USecPerOverflow ∧
  -MaxUtcSpeedCorrection ≤ s.utc_correction_usec_per_overflow ∧
  s.utc_correction_usec_per_overflow ≤ MaxUtcSpeedCorrection ∧
  (s.utc_set = false → s.utc_correction_usec_per_overflow = 0 ∧ s.utc_jump_cnt = 0)

/-- States reachable from the post-`init()` state by interleaving steps. -/
inductive Reachable : Sys → Prop where
  | init : Reachable initState
  | next : ∀ {s : Sys} {e : Event} {s2 : Sys},
      Reachable s → step e s = some s2 → Reachable s2

/-- `adjustUtc` touches only the UTC-side fields: the counter, the overflow
flag and the monotonic accumulator are untouched, and a set `utc_set` flag is
never cleared. -/
lemma adjustUtc_preserves (s : Sys) (d : Int) :
    (adjustUtc s d).cnt = s.cnt ∧ (adjustUtc s d).uif = s.uif ∧
    (adjustUtc s d).time_mono = s.time_mono ∧
    (s.utc_set = true → (adjustUtc s d).utc_set = true) := by
  unfold adjustUtc
  split_ifs <;> simp_all

/-- Effect of one interleaving step on the observed monotonic value: a tick
advances it by exactly 1 µs, the interrupt handler and `adjustUtc` leave it
unchanged; the counter stays in range. -/
lemma step_observed (e : Event) (s s2 : Sys) (hcnt : s.cnt < USecPerOverflow)
    (h : step e s = some s2) :
    observed s2 = observed s + countTicks [e] ∧ s2.cnt < USecPerOverflow := by
  cases e with
  | tick =>
    by_cases hc : s.cnt + 1 < USecPerOverflow
    · simp only [step, if_pos hc, Option.some.injEq] at h
      subst h
      simp only [observed, countTicks]
      omega
    · by_cases hu : s.uif = true
      · simp [step, hc, hu] at h
      · simp only [Bool.not_eq_true] at hu
        simp [step, hc, hu] at h
        subst h
        simp [observed, countTicks, hu, USecPerOverflow] at hcnt hc ⊢
        omega
  | irq =>
    by_cases hu : s.uif = true
    · simp only [step, if_pos hu, Option.some.injEq] at h
      subst h
      refine ⟨?_, hcnt⟩
      simp [observed, countTicks, timxIrqHandler, hu]
    · simp [step, hu] at h
  | adjust d =>
    simp only [step, Option.some.injEq] at h
    subst h
    obtain ⟨hc, hu, hm, _⟩ := adjustUtc_preserves s d
    simp only [observed, countTicks, hc, hu, hm]
    exact ⟨rfl, hc ▸ hcnt⟩

/-- Along any valid trace the observed monotonic value advances by exactly the
number of hardware ticks in the trace. -/
lemma runTrace_observed (es : List Event) : ∀ s s2 : Sys, s.cnt < USecPerOverflow →
    runTrace es s = some s2 →
    observed s2 = observed s + countTicks es ∧ s2.cnt < USecPerOverflow := by
  induction es with
  | nil =>
    intro s s2 h hr
    simp only [runTrace, Option.some.injEq] at hr
    subst hr
    simp [countTicks, h]
  | cons e es ih =>
    intro s s2 h hr
    simp only [runTrace] at hr
    cases hstep : step e s with
    | none => rw [hstep] at hr; simp at hr
    | some s1 =>
      rw [hstep] at hr
      obtain ⟨h1, h2⟩ := step_observed e s s1 h hstep
      obtain ⟨h3, h4⟩ := ih s1 s2 h2 hr
      refine ⟨?_, h4⟩
      rw [h3, h1]
      cases e <;> simp [countTicks] <;> try omega

/-- `getMonotonic` returns exactly the observed value: accumulator plus
pending-overflow compensation plus counter. -/
lemma getMonotonic_eq_observed (s : Sys) : getMonotonic s = observed s := by
  simp only [getMonotonic, sampleFromCriticalSection, observed]
  cases hu : s.uif <;> simp [hu]

/-- C1: for every sequence of `getMonotonic()` calls interleaved with
overflow events (hardware ticks, wraps and timer-interrupt steps) and
`adjustUtc` calls, the values returned by `getMonotonic()` are non-decreasing
in call order: the pending-overflow compensation of
`sampleFromCriticalSection` adds one period exactly while the overflow flag is
set but the handler has not yet run, so the observed value never steps
backwards across the handler/reader race. -/
theorem getMonotonic_nondecreasing (es : List Event) (s s2 : Sys)
    (hcnt : s.cnt < USecPerOverflow) (h : runTrace es s = some s2) :
    getMonotonic s ≤ getMonotonic s2 := by
  obtain ⟨h1, _⟩ := runTrace_observed es s s2 hcnt h
  rw [getMonotonic_eq_observed, getMonotonic_eq_observed, h1]
  omega

/-- Witness for C1: a concrete trace that wraps the counter right under a
read, runs the handler, and ticks once more. -/
theorem getMonotonic_nondecreasing_witness :
    getMonotonic ⟨65535, false, 7, 0, false, 0, 0, true⟩ ≤
      getMonotonic ⟨1, false, 65543, 0, false, 0, 0, true⟩ :=
  getMonotonic_nondecreasing [Event.tick, Event.irq, Event.tick]
    ⟨65535, false, 7, 0, false, 0, 0, true⟩ ⟨1, false, 65543, 0, false, 0, 0, true⟩
    (by decide) (by decide)

/-- C2: one run of the overflow handler advances the monotonic accumulator by
exactly one period `P = 65536` µs (so never by 0 and never by `2P`), and
advances the UTC accumulator by exactly `P` plus the speed correction if and
only if the clock is synchronized (the `uint32` sum in the source does not
wrap while the correction is within its clamped range). -/
theorem timxIrqHandler_advances_accumulators (s : Sys)
    (hlo : -MaxUtcSpeedCorrection ≤ s.utc_correction_usec_per_overflow)
    (hhi : s.utc_correction_usec_per_overflow ≤ MaxUtcSpeedCorrection) :
    (timxIrqHandler s).time_mono = s.time_mono + USecPerOverflow ∧
    (s.utc_set = true →
      ((timxIrqHandler s).time_utc : Int) =
        (s.time_utc : Int) + (USecPerOverflow : Int) + s.utc_correction_usec_per_overflow) ∧
    (s.utc_set = false → (timxIrqHandler s).time_utc = s.time_utc) := by
  refine ⟨rfl, ?_, ?_⟩
  · intro hset
    simp only [timxIrqHandler, hset, if_true, uint32ofInt, USecPerOverflow,
      MaxUtcSpeedCorrection] at *
    omega
  · intro hset
    simp [timxIrqHandler, hset]

/-- Witness for C2 at a synchronized state with speed correction 7. -/
theorem timxIrqHandler_advances_accumulators_witness :
    (timxIrqHandler ⟨0, true, 5, 100, true, 7, 0, true⟩).time_mono =
        (⟨0, true, 5, 100, true, 7, 0, true⟩ : Sys).time_mono + USecPerOverflow ∧
      ((⟨0, true, 5, 100, true, 7, 0, true⟩ : Sys).utc_set = true →
        ((timxIrqHandler ⟨0, true, 5, 100, true, 7, 0, true⟩).time_utc : Int) =
          ((⟨0, true, 5, 100, true, 7, 0, true⟩ : Sys).time_utc : Int) + (USecPerOverflow : Int) +
            (⟨0, true, 5, 100, true, 7, 0, true⟩ : Sys).utc_correction_usec_per_overflow) ∧
      ((⟨0, true, 5, 100, true, 7, 0, true⟩ : Sys).utc_set = false →
        (timxIrqHandler ⟨0, true, 5, 100, true, 7, 0, true⟩).time_utc =
          (⟨0, true, 5, 100, true, 7, 0, true⟩ : Sys).time_utc) :=
  timxIrqHandler_advances_accumulators ⟨0, true, 5, 100, true, 7, 0, true⟩
    (by decide) (by decide)

/-- C7: `getUtcSpeedCorrectionPPM` computes
`speed_correction * 1000000 / 65536` in exact integer arithmetic with
truncation toward zero: for every correction in `[-500, 500]` the `int32`
product does not wrap, and at correction 500 the result is 7629 ppm. -/
theorem getUtcSpeedCorrectionPPM_exact (s : Sys)
    (hlo : -500 ≤ s.utc_correction_usec_per_overflow)
    (hhi : s.utc_correction_usec_per_overflow ≤ 500) :
    int32wrap (s.utc_correction_usec_per_overflow * 1000000) =
        s.utc_correction_usec_per_overflow * 1000000 ∧
      getUtcSpeedCorrectionPPM s =
        Int.tdiv (s.utc_correction_usec_per_overflow * 1000000) 65536 ∧
      (s.utc_correction_usec_per_overflow = 500 → getUtcSpeedCorrectionPPM s = 7629) := by
  have hb1 : s.utc_correction_usec_per_overflow * 1000000 ≤ 500 * 1000000 :=
    mul_le_mul_of_nonneg_right hhi (by norm_num)
  have hb2 : -500 * 1000000 ≤ s.utc_correction_usec_per_overflow * 1000000 :=
    mul_le_mul_of_nonneg_right hlo (by norm_num)
  have hw : int32wrap (s.utc_correction_usec_per_overflow * 1000000) =
      s.utc_correction_usec_per_overflow * 1000000 := by
    unfold int32wrap
    omega
  refine ⟨hw, ?_, ?_⟩
  · unfold getUtcSpeedCorrectionPPM
    rw [hw]
    norm_num [USecPerOverflow]
  · intro h5
    simp only [getUtcSpeedCorrectionPPM, h5]
    decide

/-- Witness for C7 at the maximal correction 500. -/
theorem getUtcSpeedCorrectionPPM_exact_witness :
    int32wrap ((⟨0, false, 0, 0, true, 500, 0, true⟩ : Sys).utc_correction_usec_per_overflow *
          1000000) =
        (⟨0, false, 0, 0, true, 500, 0, true⟩ : Sys).utc_correction_usec_per_overflow * 1000000 ∧
      getUtcSpeedCorrectionPPM ⟨0, false, 0, 0, true, 500, 0, true⟩ =
        Int.tdiv
          ((⟨0, false, 0, 0, true, 500, 0, true⟩ : Sys).utc_correction_usec_per_overflow * 1000000)
          65536 ∧
      ((⟨0, false, 0, 0, true, 500, 0, true⟩ : Sys).utc_correction_usec_per_overflow = 500 →
        getUtcSpeedCorrectionPPM ⟨0, false, 0, 0, true, 500, 0, true⟩ = 7629) :=
  getUtcSpeedCorrectionPPM_exact ⟨0, false, 0, 0, true, 500, 0, true⟩ (by decide) (by decide)

/-- C8: `adjustUtc(0)` on an already-synchronized clock is a no-op: the whole
state, every field included, is returned unchanged, and in particular
`utc_jump_cnt` is not incremented. -/
theorem adjustUtc_zero_noop (s : Sys) (h : s.utc_set = true) : adjustUtc s 0 = s := by
  simp [adjustUtc, h]

/-- Witness for C8 at a concrete synchronized state. -/
theorem adjustUtc_zero_noop_witness :
    adjustUtc ⟨3, false, 10, 20, true, 5, 2, true⟩ 0 = ⟨3, false, 10, 20, true, 5, 2, true⟩ :=
  adjustUtc_zero_noop ⟨3, false, 10, 20, true, 5, 2, true⟩ rfl

/-- C9: `getUtc` and `getUtcUSecFromCanInterrupt` agree on every state; both
return the zero/epoch timestamp when the clock is not synchronized, and
otherwise both return the sampled value — the UTC accumulator combined with
the current counter, with one period of pending-overflow compensation. -/
theorem getUtc_variants_agree (s : Sys) :
    getUtc s = getUtcUSecFromCanInterrupt s ∧
    (s.utc_set = false → getUtc s = 0 ∧ getUtcUSecFromCanInterrupt s = 0) ∧
    (s.utc_set = true →
      getUtc s = sampleFromCriticalSection s.time_utc s ∧
      getUtc s = s.time_utc + (if s.uif = true then USecPerOverflow else 0) + s.cnt) := by
  refine ⟨rfl, ?_, ?_⟩
  · intro h
    simp [getUtc, getUtcUSecFromCanInterrupt, h]
  · intro h
    refine ⟨by simp [getUtc, h], ?_⟩
    simp only [getUtc, sampleFromCriticalSection, h, if_true]
    cases hu : s.uif <;> simp [hu]

/-- Witness for C9 at a synchronized state with a pending overflow. -/
theorem getUtc_variants_agree_witness :
    getUtc ⟨9, true, 1, 200, true, 3, 4, true⟩ =
        getUtcUSecFromCanInterrupt ⟨9, true, 1, 200, true, 3, 4, true⟩ ∧
      ((⟨9, true, 1, 200, true, 3, 4, true⟩ : Sys).utc_set = false →
        getUtc ⟨9, true, 1, 200, true, 3, 4, true⟩ = 0 ∧
          getUtcUSecFromCanInterrupt ⟨9, true, 1, 200, true, 3, 4, true⟩ = 0) ∧
      ((⟨9, true, 1, 200, true, 3, 4, true⟩ : Sys).utc_set = true →
        getUtc ⟨9, true, 1, 200, true, 3, 4, true⟩ =
            sampleFromCriticalSection (⟨9, true, 1, 200, true, 3, 4, true⟩ : Sys).time_utc
              ⟨9, true, 1, 200, true, 3, 4, true⟩ ∧
          getUtc ⟨9, true, 1, 200, true, 3, 4, true⟩ =
            (⟨9, true, 1, 200, true, 3, 4, true⟩ : Sys).time_utc +
                (if (⟨9, true, 1, 200, true, 3, 4, true⟩ : Sys).uif = true then USecPerOverflow
                  else 0) +
              (⟨9, true, 1, 200, true, 3, 4, true⟩ : Sys).cnt) :=
  getUtc_variants_agree ⟨9, true, 1, 200, true, 3, 4, true⟩

/-- C10: every read operation — the sampler, `getMonotonic`, `getUtc`,
`getUtcUSecFromCanInterrupt`, `getUtcSpeedCorrectionPPM` and
`getUtcAjdustmentJumpCount` — leaves the entire driver state unchanged, and
the sampler's pending-overflow compensation adds one period to its local
return value only. -/
theorem reads_leave_state_unchanged (v : Nat) (s : Sys) :
    (sampleFromCriticalSection_run v s).2 = s ∧
    (getMonotonic_run s).2 = s ∧
    (getUtc_run s).2 = s ∧
    (getUtcUSecFromCanInterrupt_run s).2 = s ∧
    (getUtcSpeedCorrectionPPM_run s).2 = s ∧
    (getUtcAjdustmentJumpCount_run s).2 = s ∧
    (s.uif = true → (sampleFromCriticalSection_run v s).1 = v + USecPerOverflow + s.cnt) := by
  refine ⟨rfl, rfl, rfl, rfl, rfl, rfl, ?_⟩
  intro h
  simp [sampleFromCriticalSection_run, sampleFromCriticalSection, h]

/-- Witness for C10 at a concrete state with a pending overflow. -/
theorem reads_leave_state_unchanged_witness :
    (sampleFromCriticalSection_run 42 ⟨9, true, 1, 2, true, 3, 4, true⟩).2 =
        ⟨9, true, 1, 2, true, 3, 4, true⟩ ∧
      (getMonotonic_run ⟨9, true, 1, 2, true, 3, 4, true⟩).2 = ⟨9, true, 1, 2, true, 3, 4, true⟩ ∧
      (getUtc_run ⟨9, true, 1, 2, true, 3, 4, true⟩).2 = ⟨9, true, 1, 2, true, 3, 4, true⟩ ∧
      (getUtcUSecFromCanInterrupt_run ⟨9, true, 1, 2, true, 3, 4, true⟩).2 =
        ⟨9, true, 1, 2, true, 3, 4, true⟩ ∧
      (getUtcSpeedCorrectionPPM_run ⟨9, true, 1, 2, true, 3, 4, true⟩).2 =
        ⟨9, true, 1, 2, true, 3, 4, true⟩ ∧
      (getUtcAjdustmentJumpCount_run ⟨9, true, 1, 2, true, 3, 4, true⟩).2 =
        ⟨9, true, 1, 2, true, 3, 4, true⟩ ∧
      ((⟨9, true, 1, 2, true, 3, 4, true⟩ : Sys).uif = true →
        (sampleFromCriticalSection_run 42 ⟨9, true, 1, 2, true, 3, 4, true⟩).1 =
          42 + USecPerOverflow + (⟨9, true, 1, 2, true, 3, 4, true⟩ : Sys).cnt) :=
  reads_leave_state_unchanged 42 ⟨9, true, 1, 2, true, 3, 4, true⟩

/-- The speed-trim step moves the correction by at most one unit and keeps it
inside the clamped range. -/
lemma speedTrim_bounds (c d : Int) (hlo : -MaxUtcSpeedCorrection ≤ c)
    (hhi : c ≤ MaxUtcSpeedCorrection) :
    -MaxUtcSpeedCorrection ≤ speedTrim c d ∧ speedTrim c d ≤ MaxUtcSpeedCorrection ∧
      (speedTrim c d - c).natAbs ≤ 1 := by
  unfold speedTrim MaxUtcSpeedCorrection at *
  split_ifs <;> omega

/-- Every interleaving step preserves the clock invariant. -/
lemma clockInv_step (e : Event) (s s2 : Sys) (hi : ClockInv s) (h : step e s = some s2) :
    ClockInv s2 := by
  obtain ⟨h1, h2, h3, h4⟩ := hi
  cases e with
  | tick =>
    by_cases hc : s.cnt + 1 < USecPerOverflow
    · simp only [step, if_pos hc, Option.some.injEq] at h
      subst h
      exact ⟨hc, h2, h3, h4⟩
    · by_cases hu : s.uif = true
      · simp [step, hc, hu] at h
      · simp only [Bool.not_eq_true] at hu
        simp [step, hc, hu] at h
        subst h
        exact ⟨by simp [USecPerOverflow], h2, h3, h4⟩
  | irq =>
    by_cases hu : s.uif = true
    · simp only [step, if_pos hu, Option.some.injEq] at h
      subst h
      exact ⟨h1, h2, h3, h4⟩
    · simp [step, hu] at h
  | adjust d =>
    simp only [step, Option.some.injEq] at h
    subst h
    have hs := speedTrim_bounds s.utc_correction_usec_per_overflow d h2 h3
    unfold adjustUtc
    split_ifs with ha hb hc
    · exact ⟨h1, h2, h3, h4⟩
    · refine ⟨h1, hs.1, hs.2.1, ?_⟩
      intro hf
      rw [show ({ s with
          utc_correction_usec_per_overflow := speedTrim s.utc_correction_usec_per_overflow d,
          time_utc := applyOffset s.time_utc d,
          utc_jump_cnt := s.utc_jump_cnt + 1 } : Sys).utc_set = s.utc_set from rfl] at hf
      rw [hc] at hf
      cases hf
    · exact ⟨h1, by norm_num [MaxUtcSpeedCorrection], by norm_num [MaxUtcSpeedCorrection],
        fun hf => by cases hf⟩
    · refine ⟨h1, hs.1, hs.2.1, ?_⟩
      intro hf
      rw [show ({ s with
          utc_correction_usec_per_overflow := speedTrim s.utc_correction_usec_per_overflow d } :
            Sys).utc_set = s.utc_set from rfl] at hf
      simp only [not_or] at hb
      exact absurd hf hb.2

/-- Every reachable state satisfies the clock invariant. -/
lemma reachable_clockInv {s : Sys} (h : Reachable s) : ClockInv s := by
  induction h with
  | init => exact ⟨by decide, by decide, by decide, fun _ => ⟨rfl, rfl⟩⟩
  | next hr hstep ih => exact clockInv_step _ _ _ ih hstep

/-- No step ever clears the `utc_set` flag. -/
lemma step_preserves_utc_set (e : Event) (t t2 : Sys) (ht : t.utc_set = true)
    (h : step e t = some t2) : t2.utc_set = true := by
  cases e with
  | tick =>
    by_cases hc : t.cnt + 1 < USecPerOverflow
    · simp only [step, if_pos hc, Option.some.injEq] at h
      subst h
      exact ht
    · by_cases hu : t.uif = true
      · simp [step, hc, hu] at h
      · simp only [Bool.not_eq_true] at hu
        simp [step, hc, hu] at h
        subst h
        exact ht
  | irq =>
    by_cases hu : t.uif = true
    · simp only [step, if_pos hu, Option.some.injEq] at h
      subst h
      exact ht
    · simp [step, hu] at h
  | adjust d =>
    simp only [step, Option.some.injEq] at h
    subst h
    exact (adjustUtc_preserves t d).2.2.2 ht

/-- C5: on every reachable state the speed correction lies in `[-500, 500]`,
and a single `adjustUtc` call moves it by at most 1 in absolute value while
keeping it inside the same bounds — repeated same-signed calls approach the
bound but never pass it. -/
theorem speed_correction_bounded (s : Sys) (hr : Reachable s) (d : Int) :
    (-500 ≤ s.utc_correction_usec_per_overflow ∧ s.utc_correction_usec_per_overflow ≤ 500) ∧
    ((adjustUtc s d).utc_correction_usec_per_overflow -
        s.utc_correction_usec_per_overflow).natAbs ≤ 1 ∧
    -500 ≤ (adjustUtc s d).utc_correction_usec_per_overflow ∧
    (adjustUtc s d).utc_correction_usec_per_overflow ≤ 500 := by
  obtain ⟨h1, h2, h3, h4⟩ := reachable_clockInv hr
  have hs := speedTrim_bounds s.utc_correction_usec_per_overflow d h2 h3
  simp only [MaxUtcSpeedCorrection] at h2 h3 hs
  refine ⟨⟨h2, h3⟩, ?_⟩
  unfold adjustUtc
  split_ifs with ha hb hc
  · omega
  · dsimp only
    omega
  · have h0 := h4 (by
      cases hx : s.utc_set
      · rfl
      · exact absurd hx hc)
    dsimp only
    omega
  · dsimp only
    omega

/-- Witness for C5 at the post-`init()` state with a positive adjustment. -/
theorem speed_correction_bounded_witness :
    (-500 ≤ initState.utc_correction_usec_per_overflow ∧
        initState.utc_correction_usec_per_overflow ≤ 500) ∧
      ((adjustUtc initState 3).utc_correction_usec_per_overflow -
          initState.utc_correction_usec_per_overflow).natAbs ≤ 1 ∧
      -500 ≤ (adjustUtc initState 3).utc_correction_usec_per_overflow ∧
      (adjustUtc initState 3).utc_correction_usec_per_overflow ≤ 500 :=
  speed_correction_bounded initState Reachable.init 3

/-- C6: the first `adjustUtc` call on a reachable unsynchronized clock sets
`utc_set`, resets the speed correction to 0, and leaves the jump counter
unchanged at 0; and no step — in particular no later `adjustUtc` — ever
clears `utc_set` again, so the false→true transition happens exactly once. -/
theorem first_adjustUtc_synchronizes (s : Sys) (hr : Reachable s) (h : s.utc_set = false)
    (d : Int) (t t2 : Sys) (e : Event) (ht : t.utc_set = true) (hstep : step e t = some t2) :
    (adjustUtc s d).utc_set = true ∧
    (adjustUtc s d).utc_correction_usec_per_overflow = 0 ∧
    (adjustUtc s d).utc_jump_cnt = s.utc_jump_cnt ∧
    s.utc_jump_cnt = 0 ∧
    t2.utc_set = true := by
  have hjump := ((reachable_clockInv hr).2.2.2 h).2
  refine ⟨?_, ?_, ?_, hjump, step_preserves_utc_set e t t2 ht hstep⟩ <;>
    simp [adjustUtc, h]

/-- Witness for C6: first adjustment of +2 s from the post-`init()` state,
followed by a small adjustment on an already-synchronized state. -/
theorem first_adjustUtc_synchronizes_witness :
    (adjustUtc initState 2000000).utc_set = true ∧
      (adjustUtc initState 2000000).utc_correction_usec_per_overflow = 0 ∧
      (adjustUtc initState 2000000).utc_jump_cnt = initState.utc_jump_cnt ∧
      initState.utc_jump_cnt = 0 ∧
      (⟨0, false, 0, 0, true, 1, 0, true⟩ : Sys).utc_set = true :=
  first_adjustUtc_synchronizes initState Reachable.init rfl 2000000
    ⟨0, false, 0, 0, true, 0, 0, true⟩ ⟨0, false, 0, 0, true, 1, 0, true⟩ (Event.adjust 5)
    rfl (by decide)

/-- Counterexample to C3 as stated: `delta = 1500` µs exceeds 1000 µs on a
synchronized clock, yet `adjustUtc` performs no direct-offset step — the UTC
accumulator, the jump counter and the synchronized flag are all unchanged
(`getAbs().toMSec() > 1` truncates, so 1500 µs gives 1, not more than 1). -/
theorem adjustUtc_threshold_counterexample :
    1000 < (1500 : Int) ∧
      (⟨0, false, 0, 1000000, true, 0, 0, true⟩ : Sys).utc_set = true ∧
      (adjustUtc ⟨0, false, 0, 1000000, true, 0, 0, true⟩ 1500).time_utc = 1000000 ∧
      (adjustUtc ⟨0, false, 0, 1000000, true, 0, 0, true⟩ 1500).utc_jump_cnt = 0 ∧
      (adjustUtc ⟨0, false, 0, 1000000, true, 0, 0, true⟩ 1500).utc_set = true := by
  decide

/-- C3 (amended): the direct-offset step of `adjustUtc` — observable as the
jump counter incrementing or the synchronized flag being set — is performed
if and only if the truncated millisecond magnitude `⌊|delta| / 1000⌋` exceeds
1, i.e. `|delta| ≥ 2000` µs, or the clock is not yet synchronized; otherwise
only the speed trim applies and the UTC accumulator is not written. -/
theorem adjustUtc_direct_offset_iff (s : Sys) (d : Int) :
    (((adjustUtc s d).utc_jump_cnt ≠ s.utc_jump_cnt ∨ (adjustUtc s d).utc_set ≠ s.utc_set) ↔
      (1 < d.natAbs / 1000 ∨ s.utc_set = false)) ∧
    (1 < d.natAbs / 1000 ↔ 2000 ≤ d.natAbs) ∧
    (¬(1 < d.natAbs / 1000 ∨ s.utc_set = false) → (adjustUtc s d).time_utc = s.time_utc) := by
  refine ⟨?_, by omega, ?_⟩
  · by_cases hset : s.utc_set = true
    · by_cases h0 : d = 0
      · subst h0
        simp [adjustUtc, hset, absToMSec]
      · by_cases hth : 1 < absToMSec d
        · rw [adjustUtc, if_neg (fun hx => h0 hx.1), if_pos (Or.inl hth), if_pos hset]
          simp only [absToMSec] at hth
          simp [hset, hth]
        · rw [adjustUtc, if_neg (fun hx => h0 hx.1),
            if_neg (by simp [hth, hset])]
          simp only [absToMSec] at hth
          simp [hset, hth]
    · simp only [Bool.not_eq_true] at hset
      rw [adjustUtc, if_neg (by simp [hset]), if_pos (Or.inr hset), if_neg (by simp [hset])]
      simp [hset]
  · intro hn
    simp only [not_or, Bool.not_eq_false] at hn
    by_cases h0 : d = 0
    · subst h0
      simp [adjustUtc, hn.2]
    · rw [adjustUtc, if_neg (fun hx => h0 hx.1),
        if_neg (by simp [hn.2, absToMSec, hn.1])]

/-- Witness for C3 (amended) at a synchronized state with `delta = 1500` µs. -/
theorem adjustUtc_direct_offset_iff_witness :
    (((adjustUtc ⟨0, false, 0, 9999, true, 0, 0, true⟩ 1500).utc_jump_cnt ≠
            (⟨0, false, 0, 9999, true, 0, 0, true⟩ : Sys).utc_jump_cnt ∨
          (adjustUtc ⟨0, false, 0, 9999, true, 0, 0, true⟩ 1500).utc_set ≠
            (⟨0, false, 0, 9999, true, 0, 0, true⟩ : Sys).utc_set) ↔
        (1 < (1500 : Int).natAbs / 1000 ∨
          (⟨0, false, 0, 9999, true, 0, 0, true⟩ : Sys).utc_set = false)) ∧
      (1 < (1500 : Int).natAbs / 1000 ↔ 2000 ≤ (1500 : Int).natAbs) ∧
      (¬(1 < (1500 : Int).natAbs / 1000 ∨
            (⟨0, false, 0, 9999, true, 0, 0, true⟩ : Sys).utc_set = false) →
        (adjustUtc ⟨0, false, 0, 9999, true, 0, 0, true⟩ 1500).time_utc =
          (⟨0, false, 0, 9999, true, 0, 0, true⟩ : Sys).time_utc) :=
  adjustUtc_direct_offset_iff ⟨0, false, 0, 9999, true, 0, 0, true⟩ 1500

/-- Counterexample to C4 as stated: with `utc_accumulator = 5000` and
`delta = -5000` µs the direct-offset step is reached (5 ms > 1 ms) and the
guard `uint64_t(-adj_usec) > time_utc` is false at equality, so the
accumulator becomes exactly 0 — not strictly positive. -/
theorem adjustUtc_clamp_counterexample :
    (adjustUtc ⟨0, false, 0, 5000, true, 0, 0, true⟩ (-5000)).utc_jump_cnt = 1 ∧
      (adjustUtc ⟨0, false, 0, 5000, true, 0, 0, true⟩ (-5000)).time_utc = 0 := by
  decide

/-- C4 (amended): a negative `delta` that reaches the direct-offset step
clamps the accumulator to 1 when `|delta|` exceeds it and subtracts exactly
`|delta|` otherwise, so the accumulator never wraps below zero; it stays
strictly positive except in the boundary case `|delta| = utc_accumulator`,
where it becomes exactly 0. -/
theorem adjustUtc_negative_offset_clamps (s : Sys) (d : Int) (hneg : d < 0)
    (hreach : 1 < absToMSec d ∨ s.utc_set = false) :
    (s.time_utc < d.natAbs → (adjustUtc s d).time_utc = 1) ∧
    (d.natAbs ≤ s.time_utc → (adjustUtc s d).time_utc = s.time_utc - d.natAbs) ∧
    (d.natAbs < s.time_utc → 0 < (adjustUtc s d).time_utc) := by
  have hne : ¬(d = 0 ∧ s.utc_set = true) := fun hx => by omega
  have key : (adjustUtc s d).time_utc = applyOffset s.time_utc d := by
    rw [adjustUtc, if_neg hne, if_pos hreach]
    split_ifs <;> rfl
  rw [key]
  unfold applyOffset
  split_ifs with hg
  · refine ⟨fun _ => rfl, fun hx => ?_, fun _ => Nat.one_pos⟩
    omega
  · have hle : d.natAbs ≤ s.time_utc := by
      rcases not_and_or.mp hg with hx | hx
      · exact absurd hneg hx
      · omega
    refine ⟨fun hx => ?_, fun _ => ?_, fun hx => ?_⟩ <;> omega

/-- Witness for C4 (amended): a 5-second negative adjustment against a
100 µs accumulator. -/
theorem adjustUtc_negative_offset_clamps_witness :
    ((⟨0, false, 0, 100, true, 0, 0, true⟩ : Sys).time_utc < (-5000000 : Int).natAbs →
        (adjustUtc ⟨0, false, 0, 100, true, 0, 0, true⟩ (-5000000)).time_utc = 1) ∧
      ((-5000000 : Int).natAbs ≤ (⟨0, false, 0, 100, true, 0, 0, true⟩ : Sys).time_utc →
        (adjustUtc ⟨0, false, 0, 100, true, 0, 0, true⟩ (-5000000)).time_utc =
          (⟨0, false, 0, 100, true, 0, 0, true⟩ : Sys).time_utc - (-5000000 : Int).natAbs) ∧
      ((-5000000 : Int).natAbs < (⟨0, false, 0, 100, true, 0, 0, true⟩ : Sys).time_utc →
        0 < (adjustUtc ⟨0, false, 0, 100, true, 0, 0, true⟩ (-5000000)).time_utc) :=
  adjustUtc_negative_offset_clamps ⟨0, false, 0, 100, true, 0, 0, true⟩ (-5000000)
    (by decide) (by decide)

